import Mathlib

/-!
Shallow embedding of the ETH-BOT arbitrage bot (src/src/bot.py).

Python Decimal values are modelled as exact rationals, wei amounts and gas
prices as integers, token amounts returned by venue contracts as naturals,
and every network call as an explicit oracle parameter.  A Python exception
raised at a call site is modelled by the corresponding oracle returning
none; a caught exception follows the except branch of the source.
-/

namespace ETHBot

/-- ArbitrageOpportunity dataclass (bot.py lines 18 to 27); addresses and
venue names are modelled as strings. -/
structure ArbitrageOpportunity where
  token0 : String
  token1 : String
  source_dex : String
  target_dex : String
  amount_in : ℤ
  expected_profit : ℚ
  execution_path : List String
  gas_estimate : ℤ
deriving DecidableEq

/-- Statistics dictionary initialised in the constructor (bot.py lines 73 to 78). -/
structure Stats where
  opportunities_found : ℕ
  trades_executed : ℕ
  total_profit : ℚ
  failed_trades : ℕ
deriving DecidableEq

/-- Association-list lookup, modelling Python dict indexing; none models a
KeyError. -/
def lookup {α : Type} (m : List (String × α)) (k : String) : Option α :=
  match m with
  | [] => none
  | (k1, v) :: t => if k1 = k then some v else lookup t k

/-- Flash-loan fee rate 0.0009 (bot.py line 65). -/
def flash_loan_fee : ℚ := 9 / 10000

/-- Minimum profit threshold 0.01 (bot.py line 62). -/
def min_profit_threshold : ℚ := 1 / 100

/-- Price cache time to live in seconds (bot.py line 53). -/
def CACHE_DURATION : ℚ := 5

/-- Allowed price deviation in the validation guard (bot.py line 577). -/
def MAX_PRICE_DEVIATION : ℚ := 1 / 100

/-- Gas estimate returned by the private gas estimator: the body always
returns int of 300000 times 1.2, that is 360000 (bot.py lines 125 to 141). -/
def estimate_gas_cost : ℤ := 360000

/-- Minimum trade size, 0.1 ether in wei (bot.py line 439). -/
def min_amount : ℤ := 10 ^ 17

/-- Maximum trade size, 100 ether in wei (bot.py line 440). -/
def max_amount : ℤ := 100 * 10 ^ 18

/-- Fixed probe decrement used by the bisection, 0.1 ether in wei
(bot.py line 464). -/
def probe_decrement : ℤ := 10 ^ 17

/-- Oracle type for venue quoting: venue name, token in, token out and
amount in give the last element of the getAmountsOut result, or none when
the contract call raises (bot.py lines 519 to 543). -/
abbrev Quote := String → String → String → ℤ → Option ℤ

/-- Private calculateics helper (bot.py lines 116 to 123): gross profit of a
trade of the given amount between the two unit prices. -/
def calculate_profit (amount : ℤ) (source_price target_price : ℚ) : ℚ :=
  (target_price - source_price) * (amount : ℚ)

/-- Private get-dex-output helper (bot.py lines 519 to 543): the venue call
result, with any exception caught and turned into the value 0. -/
def get_dex_output (quote : Quote) (dex token_in token_out : String)
    (amount_in : ℤ) : ℤ :=
  (quote dex token_in token_out amount_in).getD 0

/-- Private simulate-trade helper (bot.py lines 480 to 517): round-trip
output minus input, minus the flash-loan fee on the input amount. -/
def simulate_trade_profit (quote : Quote) (token0 token1 : String)
    (amount : ℤ) (source_dex target_dex : String) : ℚ :=
  let source_output := get_dex_output quote source_dex token0 token1 amount
  let target_output := get_dex_output quote target_dex token1 token0 source_output
  ((target_output - amount : ℤ) : ℚ) - (amount : ℚ) * flash_loan_fee

/-- The bisection loop body of the optimal-amount search (bot.py lines 444
to 472), written as structural recursion on the remaining iteration count.
The state carries the current bounds, the best amount seen and the best
profit seen, exactly as the Python local variables do. -/
def bisect (p : ℤ → ℚ) : ℕ → ℤ → ℤ → Option ℤ → ℚ → Option ℤ
  | 0, _, _, best_amount, _ => best_amount
  | n + 1, mn, mx, best_amount, best_profit =>
    let mid := Int.fdiv (mn + mx) 2
    let profit := p mid
    let ba := if best_profit < profit then some mid else best_amount
    let bp := if best_profit < profit then profit else best_profit
    if p (mid - probe_decrement) < profit then bisect p n mid mx ba bp
    else bisect p n mn mid ba bp

/-- Private find-optimal-amount procedure (bot.py lines 427 to 478): twenty
bisection iterations over the bounded range, starting from no best amount
and best profit zero. -/
def find_optimal_amount (quote : Quote)
    (token0 token1 source_dex target_dex : String) : Option ℤ :=
  bisect (fun a => simulate_trade_profit quote token0 token1 a source_dex target_dex)
    20 min_amount max_amount none 0

/-- Trace of the midpoints probed by the bisection: the control flow is the
same as in bisect, so the list below records exactly the amounts whose
profit feeds the running maximum. -/
def bisectMids (p : ℤ → ℚ) : ℕ → ℤ → ℤ → List ℤ
  | 0, _, _ => []
  | n + 1, mn, mx =>
    let mid := Int.fdiv (mn + mx) 2
    mid :: (if p (mid - probe_decrement) < p mid then bisectMids p n mid mx
            else bisectMids p n mn mid)

/-- Running-maximum fold used to restate the best-amount tracking of
bisect over its midpoint trace. -/
def runmax (p : ℤ → ℚ) (st : Option ℤ × ℚ) (ms : List ℤ) : Option ℤ × ℚ :=
  match ms with
  | [] => st
  | m :: t => runmax p (if st.2 < p m then (some m, p m) else st) t

/-- Net profit computed by the analyzer (bot.py lines 319 to 322): gross
profit minus the flash-loan cost, amount times fee, minus the gas cost,
gas estimate times the raw network gas price. -/
def net_profit (optimal_amount : ℤ) (source_price target_price : ℚ)
    (gas_estimate gas_price : ℤ) : ℚ :=
  calculate_profit optimal_amount source_price target_price
    - (optimal_amount : ℚ) * flash_loan_fee
    - ((gas_estimate * gas_price : ℤ) : ℚ)

/-- Private analyze-opportunity procedure (bot.py lines 277 to 339).  A
missing venue key in the price mapping raises a KeyError that the except
branch turns into none; the Python truthiness test on the optimal amount
also rejects the amount zero. -/
def analyze_opportunity (quote : Quote) (gas_price : ℤ)
    (token0 token1 source_dex target_dex : String)
    (prices : List (String × ℚ)) : Option ArbitrageOpportunity :=
  match lookup prices source_dex, lookup prices target_dex with
  | some source_price, some target_price =>
    match find_optimal_amount quote token0 token1 source_dex target_dex with
    | none => none
    | some optimal_amount =>
      if optimal_amount = 0 then none
      else
        let np := net_profit optimal_amount source_price target_price
          estimate_gas_cost gas_price
        if min_profit_threshold < np then
          some ⟨token0, token1, source_dex, target_dex, optimal_amount, np,
                [source_dex, target_dex], estimate_gas_cost⟩
        else none
  | _, _ => none

/-- Standard branch of the per-venue price fetch (bot.py lines 217 to 241):
the router returns the pair of amounts, none when the call raises; the
price is their ratio, and a zero input amount raises inside Decimal
division, which the except branch turns into none. -/
def get_dex_price (amounts : Option (ℕ × ℕ)) : Option ℚ :=
  match amounts with
  | none => none
  | some (a0, a1) => if a0 = 0 then none else some ((a1 : ℚ) / (a0 : ℚ))

/-- Snapshot construction inside the aggregator (bot.py lines 200 to 211):
one fetch per configured venue, keeping only venues whose fetch returned a
truthy price, so failed venues and zero prices are absent. -/
def build_snapshot (venues : List String) (fetch : String → Option ℚ) :
    List (String × ℚ) :=
  match venues with
  | [] => []
  | d :: t =>
    match fetch d with
    | some p =>
      if p ≠ 0 then (d, p) :: build_snapshot t fetch else build_snapshot t fetch
    | none => build_snapshot t fetch

/-- Mutable aggregator state: the price cache keyed by the pair string and
the single global last-update timestamp (bot.py lines 51 to 52). -/
structure CacheState where
  price_cache : String → Option (List (String × ℚ))
  last_cache_update : ℚ

/-- Private get-prices procedure (bot.py lines 185 to 215).  Returns the
snapshot, the successor state, and the number of venue quote calls issued.
The freshness test is the conjunction of the key being cached and the time
since the single global last update being below the TTL, exactly as in the
source. -/
def get_prices (venues : List String) (fetch : String → Option ℚ)
    (current_time : ℚ) (cache_key : String) (st : CacheState) :
    List (String × ℚ) × CacheState × ℕ :=
  if (st.price_cache cache_key).isSome ∧
      current_time - st.last_cache_update < CACHE_DURATION then
    ((st.price_cache cache_key).getD [], st, 0)
  else
    let prices := build_snapshot venues fetch
    (prices,
     ⟨fun k => if k = cache_key then some prices else st.price_cache k,
      current_time⟩,
     venues.length)

/-- Private verify-prices procedure (bot.py lines 573 to 591).  The cached
argument is the price-cache entry for the pair of the opportunity, none
when the key is missing; any KeyError and any Decimal division by a zero
current price is caught by the except branch and yields false.  Note that
each deviation is divided by the current price of the venue. -/
def verify_prices (current_prices : List (String × ℚ))
    (cached : Option (List (String × ℚ)))
    (source_dex target_dex : String) : Bool :=
  match lookup current_prices source_dex, lookup current_prices target_dex,
        cached with
  | some sp, some tp, some cs =>
    match lookup cs source_dex, lookup cs target_dex with
    | some csp, some ctp =>
      if sp = 0 ∨ tp = 0 then false
      else
        decide (|sp - csp| / sp ≤ MAX_PRICE_DEVIATION ∧
                |tp - ctp| / tp ≤ MAX_PRICE_DEVIATION)
    | _, _ => false
  | _, _, _ => false

/-- Private validate-opportunity procedure (bot.py lines 545 to 571).  The
gas price read and the price re-fetch are fallible oracles, none modelling
a raised exception, which the except branch turns into false.  The
current_prices and cache_entry arguments are decoupled here only to cover
every error combination; in the source they are always the same object,
because the re-fetch returns the very mapping stored in the price cache:
that faithful wiring is validate_prices_live below. -/
def validate_opportunity (gas_price : Option ℤ)
    (current_prices : Option (List (String × ℚ)))
    (cache_entry : Option (List (String × ℚ)))
    (opp : ArbitrageOpportunity) : Bool :=
  if opp.expected_profit ≤ min_profit_threshold then false
  else
    match gas_price with
    | none => false
    | some gp =>
      if opp.expected_profit ≤ ((opp.gas_estimate * gp : ℤ) : ℚ) then false
      else
        match current_prices with
        | none => false
        | some cur => verify_prices cur cache_entry opp.source_dex opp.target_dex

/-- Pair cache key, the string token0-token1 (bot.py lines 193 and 584). -/
def cache_key (token0 token1 : String) : String := token0 ++ "-" ++ token1

/-- The price staleness check of the validation guard as actually wired in
the source (bot.py lines 558 to 567 with 573 to 591): the fresh snapshot
passed to the price verification is the value returned by the aggregator
call, and the cached snapshot the verification reads is the price-cache
entry of the state AFTER that same call, under the same pair key.  Since
the aggregator returns exactly the mapping it stores in the cache, the two
mappings are always identical. -/
def validate_prices_live (venues : List String) (fetch : String → Option ℚ)
    (current_time : ℚ) (st : CacheState) (opp : ArbitrageOpportunity) : Bool :=
  let r := get_prices venues fetch current_time (cache_key opp.token0 opp.token1) st
  verify_prices r.1 (r.2.1.price_cache (cache_key opp.token0 opp.token1))
    opp.source_dex opp.target_dex

/-- Bundle parameters of the single eth_sendBundle request (bot.py lines
409 to 416). -/
structure BundleParams where
  txs : List String
  blockNumber : ℤ
  minTimestamp : ℤ
  maxTimestamp : ℤ
deriving DecidableEq

/-- Construction of the bundle parameters: the raw signed transaction, the
next block, a zero minimum timestamp and a maximum timestamp 120 seconds
from now (bot.py lines 410 to 415). -/
def make_bundle (raw_tx : String) (block_number now : ℤ) : BundleParams :=
  ⟨[raw_tx], block_number + 1, 0, now + 120⟩

/-- Private submit-to-flashbots procedure (bot.py lines 399 to 425).  The
relay oracle maps the bundle to the JSON response fields, none modelling a
transport error or exception; a field value of none models JSON null.
Success requires a result field that is present and non-null.  The bundle
actually sent is returned alongside the flag. -/
def submit_to_flashbots (raw_tx : String) (block_number now : ℤ)
    (relay : BundleParams → Option (List (String × Option ℤ))) :
    Bool × BundleParams :=
  let bundle := make_bundle raw_tx block_number now
  match relay bundle with
  | none => (false, bundle)
  | some fields =>
    match lookup fields "result" with
    | some (some _) => (true, bundle)
    | _ => (false, bundle)

/-- Private execute-arbitrage procedure (bot.py lines 341 to 368).  The
prepared argument is the signed raw transaction, none modelling an
exception raised while preparing or signing, which the except branch
counts as a failed trade. -/
def execute_arbitrage (opp : ArbitrageOpportunity) (prepared : Option String)
    (relay : BundleParams → Option (List (String × Option ℤ)))
    (block_number now : ℤ) (s : Stats) : Stats :=
  match prepared with
  | none => ⟨s.opportunities_found, s.trades_executed, s.total_profit,
             s.failed_trades + 1⟩
  | some raw =>
    if (submit_to_flashbots raw block_number now relay).1 then
      ⟨s.opportunities_found, s.trades_executed + 1,
       s.total_profit + opp.expected_profit, s.failed_trades⟩
    else
      ⟨s.opportunities_found, s.trades_executed, s.total_profit,
       s.failed_trades + 1⟩

/-! ### Concrete values used to evaluate the embedding on closed inputs -/

/-- Concrete quote oracle: the source venue doubles the amount, every other
venue returns it unchanged, so round trips through the source venue are
profitable. -/
def quoteW : Quote := fun dex _ _ a => if dex = "s" then some (2 * a) else some a

/-- Concrete price snapshot for the two venues of quoteW. -/
def pricesW : List (String × ℚ) := [("s", 1), ("t", 2)]

/-- Placeholder opportunity used as the default of Option.getD. -/
def oppDefault : ArbitrageOpportunity := ⟨"", "", "", "", 0, 0, [], 0⟩

/-- The opportunity the analyzer produces on the concrete scenario. -/
def oppW : ArbitrageOpportunity :=
  (analyze_opportunity quoteW 0 "T0" "T1" "s" "t" pricesW).getD oppDefault

/-- Concrete quote oracle that doubles every amount on both legs. -/
def quoteW5 : Quote := fun _ _ _ a => some (2 * a)

/-- Concrete opportunity record with positive expected profit. -/
def oppX : ArbitrageOpportunity := ⟨"a", "b", "s", "t", 1, 5, ["s", "t"], 360000⟩

/-! ### Helper lemmas about the bisection search -/

theorem runmax_fst_isSome (p : ℤ → ℚ) :
    ∀ (ms : List ℤ) (st : Option ℤ × ℚ), st.1.isSome →
      (runmax p st ms).1.isSome := by
  intro ms
  induction ms with
  | nil => intro st h; exact h
  | cons m t ih =>
    intro st h
    simp only [runmax]
    by_cases hc : st.2 < p m
    · rw [if_pos hc]; exact ih _ rfl
    · rw [if_neg hc]; exact ih _ h

theorem runmax_none_iff (p : ℤ → ℚ) :
    ∀ (ms : List ℤ) (bp : ℚ),
      (runmax p (none, bp) ms).1 = none ↔ ∀ m ∈ ms, p m ≤ bp := by
  intro ms
  induction ms with
  | nil => intro bp; simp [runmax]
  | cons m t ih =>
    intro bp
    simp only [runmax, List.mem_cons]
    by_cases hc : (none (α := ℤ), bp).2 < p m
    · rw [if_pos hc]
      constructor
      · intro h
        have := runmax_fst_isSome p t (some m, p m) rfl
        rw [h] at this
        cases this
      · intro h
        exact absurd (h m (Or.inl rfl)) (not_le.mpr hc)
    · rw [if_neg hc]
      rw [ih bp]
      constructor
      · intro h m1 hm1
        rcases hm1 with hm1 | hm1
        · subst hm1; exact not_lt.mp hc
        · exact h m1 hm1
      · intro h m1 hm1
        exact h m1 (Or.inr hm1)

theorem runmax_snd_le (p : ℤ → ℚ) :
    ∀ (ms : List ℤ) (st : Option ℤ × ℚ), st.2 ≤ (runmax p st ms).2 := by
  intro ms
  induction ms with
  | nil => intro st; exact le_refl _
  | cons m t ih =>
    intro st
    simp only [runmax]
    by_cases hc : st.2 < p m
    · rw [if_pos hc]
      exact le_trans (le_of_lt hc) (ih (some m, p m))
    · rw [if_neg hc]
      exact ih st

theorem le_runmax_snd (p : ℤ → ℚ) :
    ∀ (ms : List ℤ) (st : Option ℤ × ℚ) (m : ℤ), m ∈ ms →
      p m ≤ (runmax p st ms).2 := by
  intro ms
  induction ms with
  | nil => intro st m h; cases h
  | cons m1 t ih =>
    intro st m h
    simp only [runmax]
    rcases List.mem_cons.mp h with h1 | h1
    · subst h1
      by_cases hc : st.2 < p m
      · rw [if_pos hc]
        exact le_trans (le_refl _) (runmax_snd_le p t (some m, p m))
      · rw [if_neg hc]
        exact le_trans (not_lt.mp hc) (runmax_snd_le p t st)
    · by_cases hc : st.2 < p m1
      · rw [if_pos hc]; exact ih _ m h1
      · rw [if_neg hc]; exact ih _ m h1

theorem runmax_result (p : ℤ → ℚ) :
    ∀ (ms : List ℤ) (st : Option ℤ × ℚ),
      runmax p st ms = st ∨ ∃ a ∈ ms, runmax p st ms = (some a, p a) := by
  intro ms
  induction ms with
  | nil => intro st; exact Or.inl rfl
  | cons m t ih =>
    intro st
    simp only [runmax]
    by_cases hc : st.2 < p m
    · rw [if_pos hc]
      rcases ih (some m, p m) with h | ⟨a, ha, h⟩
      · exact Or.inr ⟨m, List.mem_cons_self m t, h⟩
      · exact Or.inr ⟨a, List.mem_cons_of_mem m ha, h⟩
    · rw [if_neg hc]
      rcases ih st with h | ⟨a, ha, h⟩
      · exact Or.inl h
      · exact Or.inr ⟨a, List.mem_cons_of_mem m ha, h⟩

theorem bisect_eq_runmax (p : ℤ → ℚ) :
    ∀ (n : ℕ) (mn mx : ℤ) (ba : Option ℤ) (bp : ℚ),
      bisect p n mn mx ba bp = (runmax p (ba, bp) (bisectMids p n mn mx)).1 := by
  intro n
  induction n with
  | zero => intro mn mx ba bp; rfl
  | succ n ih =>
    intro mn mx ba bp
    simp only [bisect, bisectMids, runmax]
    by_cases h2 : bp < p (Int.fdiv (mn + mx) 2)
    · simp only [if_pos h2]
      by_cases h1 : p (Int.fdiv (mn + mx) 2 - probe_decrement) < p (Int.fdiv (mn + mx) 2)
      · simp only [if_pos h1]; exact ih _ _ _ _
      · simp only [if_neg h1]; exact ih _ _ _ _
    · simp only [if_neg h2]
      by_cases h1 : p (Int.fdiv (mn + mx) 2 - probe_decrement) < p (Int.fdiv (mn + mx) 2)
      · simp only [if_pos h1]; exact ih _ _ _ _
      · simp only [if_neg h1]; exact ih _ _ _ _

theorem bisectMids_length (p : ℤ → ℚ) :
    ∀ (n : ℕ) (mn mx : ℤ), (bisectMids p n mn mx).length = n := by
  intro n
  induction n with
  | zero => intro mn mx; rfl
  | succ n ih =>
    intro mn mx
    simp only [bisectMids, List.length_cons]
    by_cases h : p (Int.fdiv (mn + mx) 2 - probe_decrement) < p (Int.fdiv (mn + mx) 2)
    · rw [if_pos h, ih]
    · rw [if_neg h, ih]

theorem fdiv_mid_bounds {mn mx : ℤ} (h : mn ≤ mx) :
    mn ≤ Int.fdiv (mn + mx) 2 ∧ Int.fdiv (mn + mx) 2 ≤ mx := by
  have h1 : 2 * Int.fdiv (mn + mx) 2 + Int.fmod (mn + mx) 2 = mn + mx :=
    Int.fdiv_add_fmod (mn + mx) 2
  have h2 : 0 ≤ Int.fmod (mn + mx) 2 := Int.fmod_nonneg' (mn + mx) (by norm_num)
  have h3 : Int.fmod (mn + mx) 2 < 2 := Int.fmod_lt_of_pos (mn + mx) (by norm_num)
  omega

theorem bisectMids_range (p : ℤ → ℚ) :
    ∀ (n : ℕ) (mn mx : ℤ), mn ≤ mx →
      ∀ m ∈ bisectMids p n mn mx, mn ≤ m ∧ m ≤ mx := by
  intro n
  induction n with
  | zero => intro mn mx _ m hm; cases hm
  | succ n ih =>
    intro mn mx hle m hm
    obtain ⟨hlo, hhi⟩ := fdiv_mid_bounds hle
    simp only [bisectMids] at hm
    rcases List.mem_cons.mp hm with h | h
    · subst h; exact ⟨hlo, hhi⟩
    · by_cases hc : p (Int.fdiv (mn + mx) 2 - probe_decrement) < p (Int.fdiv (mn + mx) 2)
      · rw [if_pos hc] at h
        obtain ⟨ha, hb⟩ := ih _ _ hhi m h
        exact ⟨le_trans hlo ha, hb⟩
      · rw [if_neg hc] at h
        obtain ⟨ha, hb⟩ := ih _ _ hlo m h
        exact ⟨ha, le_trans hb hhi⟩

/-! ### Helper lemmas about snapshot construction and lookup -/

theorem build_snapshot_mem (fetch : String → Option ℚ) :
    ∀ (venues : List String) (d : String) (q : ℚ),
      (d, q) ∈ build_snapshot venues fetch →
        d ∈ venues ∧ fetch d = some q ∧ q ≠ 0 := by
  intro venues
  induction venues with
  | nil => intro d q h; cases h
  | cons u t ih =>
    intro d q h
    cases hu : fetch u with
    | none =>
      simp only [build_snapshot, hu] at h
      obtain ⟨h1, h2, h3⟩ := ih d q h
      exact ⟨List.mem_cons_of_mem u h1, h2, h3⟩
    | some p =>
      simp only [build_snapshot, hu] at h
      by_cases hp : p ≠ 0
      · rw [if_pos hp] at h
        rcases List.mem_cons.mp h with h | h
        · injection h with h1 h2
          subst h1; subst h2
          exact ⟨List.mem_cons_self _ _, hu, hp⟩
        · obtain ⟨h1, h2, h3⟩ := ih d q h
          exact ⟨List.mem_cons_of_mem u h1, h2, h3⟩
      · rw [if_neg hp] at h
        obtain ⟨h1, h2, h3⟩ := ih d q h
        exact ⟨List.mem_cons_of_mem u h1, h2, h3⟩

theorem build_snapshot_length_all_kept (fetch : String → Option ℚ) :
    ∀ (l : List String),
      (∀ u ∈ l, fetch u ≠ none ∧ fetch u ≠ some 0) →
      (build_snapshot l fetch).length = l.length := by
  intro l
  induction l with
  | nil => intro _; rfl
  | cons u t ih =>
    intro h
    obtain ⟨h1, h2⟩ := h u (List.mem_cons_self u t)
    cases hu : fetch u with
    | none => exact absurd hu h1
    | some p =>
      have hp : p ≠ 0 := by
        intro hp0
        subst hp0
        exact h2 hu
      simp only [build_snapshot, hu, if_pos hp, List.length_cons]
      rw [ih (fun v hv => h v (List.mem_cons_of_mem u hv))]

theorem lookup_build_snapshot_none (fetch : String → Option ℚ) :
    ∀ (l : List String) (d : String),
      (fetch d = none ∨ fetch d = some 0) →
      lookup (build_snapshot l fetch) d = none := by
  intro l
  induction l with
  | nil => intro d _; rfl
  | cons u t ih =>
    intro d hd
    cases hu : fetch u with
    | none =>
      simp only [build_snapshot, hu]
      exact ih d hd
    | some p =>
      simp only [build_snapshot, hu]
      by_cases hp : p ≠ 0
      · rw [if_pos hp]
        have hud : u ≠ d := by
          intro he
          subst he
          rcases hd with hd | hd <;> rw [hu] at hd
          · cases hd
          · injection hd with hd; exact hp hd
        simp only [lookup, if_neg hud]
        exact ih d hd
      · rw [if_neg hp]
        exact ih d hd

theorem lookup_head_ne (m : List (String × ℚ)) (k1 d : String) (v : ℚ)
    (h : k1 ≠ d) : lookup ((k1, v) :: m) d = lookup m d := by
  simp only [lookup, if_neg h]

theorem get_dex_price_nonneg (am : Option (ℕ × ℕ)) (q : ℚ)
    (h : get_dex_price am = some q) : 0 ≤ q := by
  cases am with
  | none => cases h
  | some p =>
    obtain ⟨a0, a1⟩ := p
    simp only [get_dex_price] at h
    by_cases h0 : a0 = 0
    · rw [if_pos h0] at h; cases h
    · rw [if_neg h0] at h
      injection h with h
      subst h
      positivity

theorem bisect_characterization (p : ℤ → ℚ) (n : ℕ) (mn mx : ℤ) (hle : mn ≤ mx) :
    (bisectMids p n mn mx).length = n ∧
    (bisect p n mn mx none 0 = none ↔ ∀ m ∈ bisectMids p n mn mx, p m ≤ 0) ∧
    ∀ a, bisect p n mn mx none 0 = some a →
      a ∈ bisectMids p n mn mx ∧ mn ≤ a ∧ a ≤ mx ∧ 0 < p a ∧
      ∀ m ∈ bisectMids p n mn mx, p m ≤ p a := by
  refine ⟨bisectMids_length p n mn mx, ?_, ?_⟩
  · rw [bisect_eq_runmax]
    exact runmax_none_iff p _ 0
  · intro a ha
    rw [bisect_eq_runmax] at ha
    rcases runmax_result p (bisectMids p n mn mx) (none, 0) with hr | ⟨b, hb, hr⟩
    · rw [hr] at ha; cases ha
    · rw [hr] at ha
      injection ha with ha
      subst ha
      have hmax : ∀ m ∈ bisectMids p n mn mx, p m ≤ p b := by
        intro m hm
        have h1 := le_runmax_snd p (bisectMids p n mn mx) (none, 0) m hm
        rw [hr] at h1
        exact h1
      have hpos : 0 < p b := by
        by_contra hneg
        have hall : ∀ m ∈ bisectMids p n mn mx, p m ≤ 0 := fun m hm =>
          le_trans (hmax m hm) (not_lt.mp hneg)
        have h2 := (runmax_none_iff p (bisectMids p n mn mx) 0).mpr hall
        rw [hr] at h2
        cases h2
      obtain ⟨h1, h2⟩ := bisectMids_range p n mn mx hle b hb
      exact ⟨hb, h1, h2, hpos, hmax⟩

/-! ### Claim theorems -/

section ClaimSection

attribute [local semireducible] Rat.mul Rat.add Rat.sub Rat.inv

/-- C1 (counterexample): at the scenario of the claim, amount 10, source price
2000, target price 2020, gas estimate 360000 and network gas price 50 gwei,
that is 50 times ten to the 9 wei, the net profit the analyzer computes is
not the value (2020 - 2000) times 10 minus 10 times 0.0009 times 2000 minus
360000 times 50 times ten to the minus 9 stated by the claim: the code
charges the flash-loan fee on the amount alone, without the source price
factor, and multiplies the gas estimate by the raw wei gas price with no
unit conversion.  The first conjunct records the value the code does
compute. -/
theorem claim_C1_counterexample :
    net_profit 10 2000 2020 360000 (50 * 10 ^ 9) =
      (2020 - 2000) * 10 - 10 * (9 / 10000) - 360000 * (50 * 10 ^ 9) ∧
    net_profit 10 2000 2020 360000 (50 * 10 ^ 9) ≠
      (2020 - 2000) * 10 - 10 * (9 / 10000) * 2000 - 360000 * (50 / 10 ^ 9) := by
  constructor
  · norm_num [net_profit, calculate_profit, flash_loan_fee]
  · norm_num [net_profit, calculate_profit, flash_loan_fee]

/-- C1 (amended): for every opportunity the Opportunity Analyzer returns,
the expected profit equals the price difference times the amount, minus the
flash-loan fee rate times the amount alone, minus the gas estimate times
the raw network gas price with no unit conversion. -/
theorem claim_C1 (quote : Quote) (gas_price : ℤ)
    (token0 token1 source_dex target_dex : String)
    (prices : List (String × ℚ)) (o : ArbitrageOpportunity)
    (h : analyze_opportunity quote gas_price token0 token1 source_dex target_dex prices
        = some o) :
    ∃ sp tp, lookup prices source_dex = some sp ∧ lookup prices target_dex = some tp ∧
      o.expected_profit = (tp - sp) * (o.amount_in : ℚ)
        - (o.amount_in : ℚ) * flash_loan_fee
        - ((estimate_gas_cost * gas_price : ℤ) : ℚ) := by
  cases h1 : lookup prices source_dex with
  | none => simp only [analyze_opportunity, h1] at h; exact Option.noConfusion h
  | some sp =>
    cases h2 : lookup prices target_dex with
    | none => simp only [analyze_opportunity, h1, h2] at h; exact Option.noConfusion h
    | some tp =>
      cases h3 : find_optimal_amount quote token0 token1 source_dex target_dex with
      | none =>
        simp only [analyze_opportunity, h1, h2, h3] at h
        exact Option.noConfusion h
      | some amt =>
        simp only [analyze_opportunity, h1, h2, h3] at h
        by_cases h4 : amt = 0
        · rw [if_pos h4] at h; cases h
        · rw [if_neg h4] at h
          by_cases h5 : min_profit_threshold <
              net_profit amt sp tp estimate_gas_cost gas_price
          · rw [if_pos h5] at h
            injection h with h
            subst h
            exact ⟨sp, tp, rfl, rfl, rfl⟩
          · rw [if_neg h5] at h; cases h

set_option maxRecDepth 100000 in
/-- C1 (witness): the analyzer produces an opportunity on the concrete
profitable scenario, and its expected profit has the amended shape. -/
theorem claim_C1_witness :
    oppW.expected_profit = ((2 : ℚ) - 1) * (oppW.amount_in : ℚ)
      - (oppW.amount_in : ℚ) * flash_loan_fee
      - ((estimate_gas_cost * 0 : ℤ) : ℚ) := by
  obtain ⟨sp, tp, h1, h2, h3⟩ :=
    claim_C1 quoteW 0 "T0" "T1" "s" "t" pricesW oppW (by decide)
  have hs : (some sp : Option ℚ) = some 1 := by rw [← h1]; decide
  have ht : (some tp : Option ℚ) = some 2 := by rw [← h2]; decide
  injection hs with hs
  injection ht with ht
  subst hs; subst ht
  exact h3

/-- C2: the Opportunity Analyzer returns an opportunity only when the
computed net profit is strictly greater than the configured minimum profit
threshold, so every returned opportunity has expected_profit above
min_profit_threshold at construction time. -/
theorem claim_C2 (quote : Quote) (gas_price : ℤ)
    (token0 token1 source_dex target_dex : String)
    (prices : List (String × ℚ)) (o : ArbitrageOpportunity)
    (h : analyze_opportunity quote gas_price token0 token1 source_dex target_dex prices
        = some o) :
    min_profit_threshold < o.expected_profit := by
  cases h1 : lookup prices source_dex with
  | none => simp only [analyze_opportunity, h1] at h; exact Option.noConfusion h
  | some sp =>
    cases h2 : lookup prices target_dex with
    | none => simp only [analyze_opportunity, h1, h2] at h; exact Option.noConfusion h
    | some tp =>
      cases h3 : find_optimal_amount quote token0 token1 source_dex target_dex with
      | none =>
        simp only [analyze_opportunity, h1, h2, h3] at h
        exact Option.noConfusion h
      | some amt =>
        simp only [analyze_opportunity, h1, h2, h3] at h
        by_cases h4 : amt = 0
        · rw [if_pos h4] at h; cases h
        · rw [if_neg h4] at h
          by_cases h5 : min_profit_threshold <
              net_profit amt sp tp estimate_gas_cost gas_price
          · rw [if_pos h5] at h
            injection h with h
            subst h
            exact h5
          · rw [if_neg h5] at h; cases h

set_option maxRecDepth 100000 in
/-- C2 (witness): on the concrete profitable scenario the returned
opportunity clears the threshold. -/
theorem claim_C2_witness : min_profit_threshold < oppW.expected_profit :=
  claim_C2 quoteW 0 "T0" "T1" "s" "t" pricesW oppW (by decide)

/-- C5: the Trade-Size Optimizer runs exactly 20 bisection iterations over
the bounded amount range, probing one midpoint per iteration; it returns
an amount only if that amount is one of the probed midpoints, lies in the
range, has strictly positive simulated profit, and its profit is the
maximum over all probed midpoints (running maximum, not the final
bisection point); it returns none exactly when no probed midpoint has
strictly positive profit. -/
theorem claim_C5 (quote : Quote) (token0 token1 source_dex target_dex : String) :
    (bisectMids (fun a => simulate_trade_profit quote token0 token1 a source_dex target_dex)
        20 min_amount max_amount).length = 20 ∧
    (find_optimal_amount quote token0 token1 source_dex target_dex = none ↔
      ∀ m ∈ bisectMids
          (fun a => simulate_trade_profit quote token0 token1 a source_dex target_dex)
          20 min_amount max_amount,
        simulate_trade_profit quote token0 token1 m source_dex target_dex ≤ 0) ∧
    ∀ a, find_optimal_amount quote token0 token1 source_dex target_dex = some a →
      a ∈ bisectMids
          (fun a => simulate_trade_profit quote token0 token1 a source_dex target_dex)
          20 min_amount max_amount ∧
      min_amount ≤ a ∧ a ≤ max_amount ∧
      0 < simulate_trade_profit quote token0 token1 a source_dex target_dex ∧
      ∀ m ∈ bisectMids
          (fun a => simulate_trade_profit quote token0 token1 a source_dex target_dex)
          20 min_amount max_amount,
        simulate_trade_profit quote token0 token1 m source_dex target_dex ≤
          simulate_trade_profit quote token0 token1 a source_dex target_dex :=
  bisect_characterization
    (fun a => simulate_trade_profit quote token0 token1 a source_dex target_dex)
    20 min_amount max_amount (by norm_num [min_amount, max_amount])

set_option maxRecDepth 100000 in
/-- C5 (witness): on a concrete profitable quote oracle the optimizer
returns an in-range amount with strictly positive simulated profit. -/
theorem claim_C5_witness :
    min_amount ≤ (find_optimal_amount quoteW5 "x" "y" "s" "t").getD 0 ∧
    (find_optimal_amount quoteW5 "x" "y" "s" "t").getD 0 ≤ max_amount ∧
    0 < simulate_trade_profit quoteW5 "x" "y"
        ((find_optimal_amount quoteW5 "x" "y" "s" "t").getD 0) "s" "t" := by
  obtain ⟨-, -, h3⟩ := claim_C5 quoteW5 "x" "y" "s" "t"
  obtain ⟨-, ha1, ha2, hpos, -⟩ :=
    h3 ((find_optimal_amount quoteW5 "x" "y" "s" "t").getD 0) (by decide)
  exact ⟨ha1, ha2, hpos⟩

/-- C3 (code bug): the claim, and the source comments of the price
verification (verify prices have not changed significantly, allow 1
percent price deviation), say the guard rejects when a venue price has
moved by more than 1 percent since discovery.  The code cannot do this:
the aggregator returns the very mapping it stores in the price cache, so
the verification always compares the fresh snapshot with itself.  First
conjunct: after any aggregator call the cache entry under the pair key is
exactly the returned snapshot.  Remaining conjuncts trace a concrete run:
discovery at time 0 records price 100 for both venues; at time 10 the TTL
has expired and both venues quote 200, a 100 percent move, far beyond the
tolerance, yet the live price check accepts. -/
theorem claim_C3 :
    (∀ (venues : List String) (fetch : String → Option ℚ) (t : ℚ) (key : String)
        (st : CacheState),
      (get_prices venues fetch t key st).2.1.price_cache key =
        some ((get_prices venues fetch t key st).1)) ∧
    (get_prices ["s", "t"] (fun _ => some 100) 0 (cache_key "A" "B")
        ⟨fun _ => none, 0⟩).1 = [("s", 100), ("t", 100)] ∧
    CACHE_DURATION ≤ (10 : ℚ) - 0 ∧
    MAX_PRICE_DEVIATION < |(200 : ℚ) - 100| / 100 ∧
    validate_prices_live ["s", "t"] (fun _ => some 200) 10
      (get_prices ["s", "t"] (fun _ => some 100) 0 (cache_key "A" "B")
        ⟨fun _ => none, 0⟩).2.1
      ⟨"A", "B", "s", "t", 1, 5, ["s", "t"], 360000⟩ = true := by
  refine ⟨?_, by decide, by norm_num [CACHE_DURATION],
    by norm_num [MAX_PRICE_DEVIATION], by decide⟩
  intro venues fetch t key st
  by_cases hc : (st.price_cache key).isSome ∧
      t - st.last_cache_update < CACHE_DURATION
  · have hg : get_prices venues fetch t key st =
        ((st.price_cache key).getD [], st, 0) := by
      simp only [get_prices]
      rw [if_pos hc]
    rw [hg]
    obtain ⟨h1, -⟩ := hc
    cases hk : st.price_cache key with
    | none => rw [hk] at h1; cases h1
    | some s => rfl
  · have hg : get_prices venues fetch t key st =
        (build_snapshot venues fetch,
         ⟨fun k => if k = key then some (build_snapshot venues fetch)
                   else st.price_cache k, t⟩,
         venues.length) := by
      simp only [get_prices]
      rw [if_neg hc]
    rw [hg]
    exact if_pos rfl

/-- C4 (counterexample): freshness is not judged per pair.  Pair A is
aggregated at time 0, pair B at time 4; at time 7 the snapshot of pair A
is 7 seconds old, beyond the 5 second TTL, yet the aggregation call for
pair A performs zero venue calls and returns the stale time-0 snapshot
with price 1, although a fresh fetch would give price 2: the time-4
aggregation of pair B reset the single global freshness timestamp. -/
theorem claim_C4_counterexample :
    CACHE_DURATION ≤ (7 : ℚ) - 0 ∧
    (get_prices ["d"] (fun _ => some 2) 7 "A"
      (get_prices ["d"] (fun _ => some 1) 4 "B"
        (get_prices ["d"] (fun _ => some 1) 0 "A" ⟨fun _ => none, 0⟩).2.1).2.1).1
      = [("d", 1)] ∧
    (get_prices ["d"] (fun _ => some 2) 7 "A"
      (get_prices ["d"] (fun _ => some 1) 4 "B"
        (get_prices ["d"] (fun _ => some 1) 0 "A" ⟨fun _ => none, 0⟩).2.1).2.1).2.2
      = 0 ∧
    build_snapshot ["d"] (fun _ => some 2) = [("d", 2)] := by
  refine ⟨by norm_num [CACHE_DURATION], ?_, ?_, by decide⟩
  · decide
  · decide

/-- C4 (amended): the cache is keyed per pair but freshness is judged by
the single global last-update timestamp shared by all pairs: a call
returns the cached snapshot with zero venue calls when the pair is cached
and less than the TTL has elapsed since the last cache update of any pair;
otherwise it quotes every venue, returns the fresh snapshot and overwrites
the cache entry and the global timestamp.  Consequently a recent
aggregation of one pair can suppress the re-fetch of a different pair
whose own snapshot has expired. -/
theorem claim_C4 (venues : List String) (fetch : String → Option ℚ)
    (t : ℚ) (key : String) (st : CacheState) :
    (∀ s, st.price_cache key = some s →
      t - st.last_cache_update < CACHE_DURATION →
      get_prices venues fetch t key st = (s, st, 0)) ∧
    ((st.price_cache key = none ∨ CACHE_DURATION ≤ t - st.last_cache_update) →
      (get_prices venues fetch t key st).1 = build_snapshot venues fetch ∧
      (get_prices venues fetch t key st).2.1.price_cache key =
        some (build_snapshot venues fetch) ∧
      (get_prices venues fetch t key st).2.1.last_cache_update = t ∧
      (get_prices venues fetch t key st).2.2 = venues.length) := by
  constructor
  · intro s hs hlt
    have hcond : (st.price_cache key).isSome ∧
        t - st.last_cache_update < CACHE_DURATION := by
      rw [hs]
      exact ⟨rfl, hlt⟩
    have hg : get_prices venues fetch t key st =
        ((st.price_cache key).getD [], st, 0) := by
      simp only [get_prices]
      rw [if_pos hcond]
    rw [hg, hs]
    rfl
  · intro h
    have hcond : ¬((st.price_cache key).isSome ∧
        t - st.last_cache_update < CACHE_DURATION) := by
      rcases h with h | h
      · rw [h]
        rintro ⟨h1, -⟩
        cases h1
      · rintro ⟨-, h2⟩
        exact absurd h2 (not_lt.mpr h)
    have hg : get_prices venues fetch t key st =
        (build_snapshot venues fetch,
         ⟨fun k => if k = key then some (build_snapshot venues fetch)
                   else st.price_cache k, t⟩,
         venues.length) := by
      simp only [get_prices]
      rw [if_neg hcond]
    rw [hg]
    exact ⟨rfl, if_pos rfl, rfl, rfl⟩

/-- C4 (witness): a call within the TTL returns the cached snapshot
unchanged with zero venue calls, and a call after the TTL issues one call
per venue. -/
theorem claim_C4_witness :
    get_prices ["d"] (fun _ => some 2) 3 "A"
        ⟨fun k => if k = "A" then some [("d", 1)] else none, 0⟩
      = ([("d", 1)], ⟨fun k => if k = "A" then some [("d", 1)] else none, 0⟩, 0) ∧
    (get_prices ["d"] (fun _ => some 2) 9 "A"
        ⟨fun k => if k = "A" then some [("d", 1)] else none, 0⟩).2.2 = 1 := by
  constructor
  · exact (claim_C4 ["d"] (fun _ => some 2) 3 "A"
      ⟨fun k => if k = "A" then some [("d", 1)] else none, 0⟩).1
      [("d", 1)] (by decide) (by norm_num [CACHE_DURATION])
  · exact ((claim_C4 ["d"] (fun _ => some 2) 9 "A"
      ⟨fun k => if k = "A" then some [("d", 1)] else none, 0⟩).2
      (Or.inr (by norm_num [CACHE_DURATION]))).2.2.2

theorem build_snapshot_length_one_fail (fetch : String → Option ℚ) (v : String)
    (hfail : fetch v = none) :
    ∀ venues : List String, v ∈ venues → venues.Nodup →
      (∀ u ∈ venues, u ≠ v → fetch u ≠ none ∧ fetch u ≠ some 0) →
      (build_snapshot venues fetch).length = venues.length - 1 := by
  intro venues
  induction venues with
  | nil => intro hv _ _; cases hv
  | cons u t ih =>
    intro hv hnd hok
    rcases List.mem_cons.mp hv with he | hm
    · subst he
      simp only [build_snapshot, hfail, List.length_cons]
      have hvt : v ∉ t := (List.nodup_cons.mp hnd).1
      have hall : ∀ w ∈ t, fetch w ≠ none ∧ fetch w ≠ some 0 := by
        intro w hw
        refine hok w (List.mem_cons_of_mem _ hw) ?_
        intro hwv
        subst hwv
        exact hvt hw
      rw [build_snapshot_length_all_kept fetch t hall]
      omega
    · have hu : u ≠ v := by
        intro he
        subst he
        exact (List.nodup_cons.mp hnd).1 hm
      obtain ⟨hn0, hn1⟩ := hok u (List.mem_cons_self u t) hu
      cases hu2 : fetch u with
      | none => exact absurd hu2 hn0
      | some p =>
        have hp : p ≠ 0 := by
          intro h0
          subst h0
          exact hn1 hu2
        simp only [build_snapshot, hu2, if_pos hp, List.length_cons]
        rw [ih hm (List.nodup_cons.mp hnd).2
          (fun w hw hwv => hok w (List.mem_cons_of_mem _ hw) hwv)]
        have hlen : 0 < t.length := List.length_pos_of_mem hm
        omega

/-- C6: if exactly one of N configured venues fails during aggregation,
the resulting snapshot contains exactly the N minus 1 successful venues,
and the failed venue is absent from the mapping (never recorded as a zero
or null price); the aggregation itself is total, it never raises. -/
theorem claim_C6 (venues : List String) (fetch : String → Option ℚ) (v : String)
    (hv : v ∈ venues) (hnd : venues.Nodup) (hfail : fetch v = none)
    (hok : ∀ u ∈ venues, u ≠ v → fetch u ≠ none ∧ fetch u ≠ some 0) :
    (build_snapshot venues fetch).length = venues.length - 1 ∧
    lookup (build_snapshot venues fetch) v = none :=
  ⟨build_snapshot_length_one_fail fetch v hfail venues hv hnd hok,
   lookup_build_snapshot_none fetch venues v (Or.inl hfail)⟩

/-- C6 (witness): with venues a, b, c and only b failing, the snapshot
has two entries and b is absent. -/
theorem claim_C6_witness :
    (build_snapshot ["a", "b", "c"]
        (fun u => if u = "b" then none else some 1)).length = 3 - 1 ∧
    lookup (build_snapshot ["a", "b", "c"]
        (fun u => if u = "b" then none else some 1)) "b" = none :=
  claim_C6 ["a", "b", "c"] (fun u => if u = "b" then none else some 1) "b"
    (by decide) (by decide) (by decide) (by decide)

/-- C7: any internal error while validating an opportunity, a raised gas
price read, a failed price re-fetch or a missing cache entry, makes the
Validation Guard return false, never a pass. -/
theorem claim_C7 (gp : Option ℤ) (cur cache : Option (List (String × ℚ)))
    (opp : ArbitrageOpportunity)
    (h : gp = none ∨ cur = none ∨ cache = none) :
    validate_opportunity gp cur cache opp = false := by
  cases gp with
  | none =>
    simp only [validate_opportunity]
    by_cases h0 : opp.expected_profit ≤ min_profit_threshold
    · rw [if_pos h0]
    · rw [if_neg h0]
  | some g =>
    cases cur with
    | none =>
      simp only [validate_opportunity]
      by_cases h0 : opp.expected_profit ≤ min_profit_threshold
      · rw [if_pos h0]
      · rw [if_neg h0]
        by_cases h1 : opp.expected_profit ≤ ((opp.gas_estimate * g : ℤ) : ℚ)
        · rw [if_pos h1]
        · rw [if_neg h1]
    | some c =>
      cases cache with
      | some cc =>
        rcases h with h | h | h <;> exact Option.noConfusion h
      | none =>
        simp only [validate_opportunity]
        by_cases h0 : opp.expected_profit ≤ min_profit_threshold
        · rw [if_pos h0]
        · rw [if_neg h0]
          by_cases h1 : opp.expected_profit ≤ ((opp.gas_estimate * g : ℤ) : ℚ)
          · rw [if_pos h1]
          · rw [if_neg h1]
            cases hl1 : lookup c opp.source_dex with
            | none => simp [verify_prices, hl1]
            | some q1 =>
              cases hl2 : lookup c opp.target_dex with
              | none => simp [verify_prices, hl1, hl2]
              | some q2 => simp [verify_prices, hl1, hl2]

/-- C7 (witness): a failed gas price read yields rejection. -/
theorem claim_C7_witness :
    validate_opportunity none (some []) (some []) oppX = false :=
  claim_C7 none (some []) (some []) oppX (Or.inl rfl)

/-- C8 (counterexample): the claim says the bundle carries a validity
window starting at the submission time; with now equal to 1000 the code
sends minTimestamp 0, not 1000. -/
theorem claim_C8_counterexample :
    (submit_to_flashbots "tx" 5 1000 (fun _ => none)).2.minTimestamp = 0 ∧
    (submit_to_flashbots "tx" 5 1000 (fun _ => none)).2.minTimestamp ≠ 1000 := by
  constructor
  · rfl
  · decide

/-- C8 (amended): the Execution Submitter submits exactly one bundle whose
parameters are the raw transaction, target block current block plus one,
minTimestamp 0 (no lower bound, not the submission time) and maxTimestamp
now plus 120 seconds; it reports success iff the relay response contains a
non-null result field, any other response or transport error yielding
failure. -/
theorem claim_C8 (raw_tx : String) (block_number now : ℤ)
    (relay : BundleParams → Option (List (String × Option ℤ))) :
    (submit_to_flashbots raw_tx block_number now relay).2 =
        make_bundle raw_tx block_number now ∧
    (make_bundle raw_tx block_number now).txs = [raw_tx] ∧
    (make_bundle raw_tx block_number now).blockNumber = block_number + 1 ∧
    (make_bundle raw_tx block_number now).minTimestamp = 0 ∧
    (make_bundle raw_tx block_number now).maxTimestamp = now + 120 ∧
    ((submit_to_flashbots raw_tx block_number now relay).1 = true ↔
      ∃ fields v, relay (make_bundle raw_tx block_number now) = some fields ∧
        lookup fields "result" = some (some v)) := by
  refine ⟨?_, rfl, rfl, rfl, rfl, ?_⟩
  · cases hr : relay (make_bundle raw_tx block_number now) with
    | none => simp only [submit_to_flashbots, hr]
    | some fields =>
      cases hl : lookup fields "result" with
      | none => simp only [submit_to_flashbots, hr, hl]
      | some r =>
        cases r with
        | none => simp only [submit_to_flashbots, hr, hl]
        | some v => simp only [submit_to_flashbots, hr, hl]
  · cases hr : relay (make_bundle raw_tx block_number now) with
    | none =>
      simp only [submit_to_flashbots, hr]
      constructor
      · intro h
        exact Bool.noConfusion h
      · rintro ⟨f, v, hf, -⟩
        exact Option.noConfusion hf
    | some fields =>
      cases hl : lookup fields "result" with
      | none =>
        simp only [submit_to_flashbots, hr, hl]
        constructor
        · intro h
          exact Bool.noConfusion h
        · rintro ⟨f, v, hf, hlv⟩
          injection hf with hf
          subst hf
          rw [hl] at hlv
          exact Option.noConfusion hlv
      | some r =>
        cases r with
        | none =>
          simp only [submit_to_flashbots, hr, hl]
          constructor
          · intro h
            exact Bool.noConfusion h
          · rintro ⟨f, v, hf, hlv⟩
            injection hf with hf
            subst hf
            rw [hl] at hlv
            injection hlv with hlv
            exact Option.noConfusion hlv
        | some v =>
          simp only [submit_to_flashbots, hr, hl]
          constructor
          · intro h2
            exact ⟨fields, v, rfl, hl⟩
          · intro h2
            trivial

/-- C8 (witness): a relay response with a non-null result field reports
success. -/
theorem claim_C8_witness :
    (submit_to_flashbots "tx" 7 100 (fun _ => some [("result", some 3)])).1 = true :=
  (claim_C8 "tx" 7 100 (fun _ => some [("result", some 3)])).2.2.2.2.2.mpr
    ⟨[("result", some 3)], 3, rfl, by decide⟩

/-- C9: every snapshot the Price Aggregator builds from venue quotes
contains only strictly positive prices, and a venue whose quote computes
to exactly zero is absent from the snapshot, exactly as if its fetch had
failed. -/
theorem claim_C9 (venues : List String) (amounts : String → Option (ℕ × ℕ)) :
    (∀ d q, (d, q) ∈ build_snapshot venues (fun u => get_dex_price (amounts u)) →
      0 < q) ∧
    (∀ d, get_dex_price (amounts d) = some 0 →
      lookup (build_snapshot venues (fun u => get_dex_price (amounts u))) d = none) := by
  constructor
  · intro d q hmem
    obtain ⟨-, hfd, hq0⟩ :=
      build_snapshot_mem (fun u => get_dex_price (amounts u)) venues d q hmem
    have hnn : 0 ≤ q := get_dex_price_nonneg (amounts d) q hfd
    exact lt_of_le_of_ne hnn (Ne.symm hq0)
  · intro d hd
    exact lookup_build_snapshot_none (fun u => get_dex_price (amounts u)) venues d
      (Or.inr hd)

/-- C9 (witness): with venue a quoting amounts 1 and 2 and venue z quoting
amounts 1 and 0, the snapshot price of a is positive and z is absent. -/
theorem claim_C9_witness :
    (0 : ℚ) < 2 ∧
    lookup (build_snapshot ["a", "z"]
      (fun u => get_dex_price (if u = "a" then some (1, 2) else some (1, 0)))) "z"
      = none := by
  constructor
  · exact (claim_C9 ["a", "z"]
      (fun u => if u = "a" then some (1, 2) else some (1, 0))).1 "a" 2 (by decide)
  · exact (claim_C9 ["a", "z"]
      (fun u => if u = "a" then some (1, 2) else some (1, 0))).2 "z" (by decide)

/-- C10: on relay acceptance the executor increments trades_executed by
one and adds the discovery-time expected profit to total_profit, leaving
failed_trades unchanged; on relay failure or any exception while preparing
or signing it increments failed_trades by one and leaves trades_executed
and total_profit unchanged. -/
theorem claim_C10 (opp : ArbitrageOpportunity) (prepared : Option String)
    (relay : BundleParams → Option (List (String × Option ℤ)))
    (block_number now : ℤ) (s : Stats) :
    ((∃ raw, prepared = some raw ∧
        (submit_to_flashbots raw block_number now relay).1 = true) →
      (execute_arbitrage opp prepared relay block_number now s).trades_executed =
          s.trades_executed + 1 ∧
      (execute_arbitrage opp prepared relay block_number now s).total_profit =
          s.total_profit + opp.expected_profit ∧
      (execute_arbitrage opp prepared relay block_number now s).failed_trades =
          s.failed_trades) ∧
    ((prepared = none ∨ ∃ raw, prepared = some raw ∧
        (submit_to_flashbots raw block_number now relay).1 = false) →
      (execute_arbitrage opp prepared relay block_number now s).failed_trades =
          s.failed_trades + 1 ∧
      (execute_arbitrage opp prepared relay block_number now s).trades_executed =
          s.trades_executed ∧
      (execute_arbitrage opp prepared relay block_number now s).total_profit =
          s.total_profit) := by
  constructor
  · rintro ⟨raw, hp, hs⟩
    subst hp
    have he : execute_arbitrage opp (some raw) relay block_number now s =
        ⟨s.opportunities_found, s.trades_executed + 1,
         s.total_profit + opp.expected_profit, s.failed_trades⟩ := by
      simp only [execute_arbitrage, hs, if_true]
    rw [he]
    exact ⟨rfl, rfl, rfl⟩
  · rintro (hp | ⟨raw, hp, hs⟩)
    · subst hp
      exact ⟨rfl, rfl, rfl⟩
    · subst hp
      have he : execute_arbitrage opp (some raw) relay block_number now s =
          ⟨s.opportunities_found, s.trades_executed, s.total_profit,
           s.failed_trades + 1⟩ := by
        simp only [execute_arbitrage, hs, Bool.false_eq_true, if_false]
      rw [he]
      exact ⟨rfl, rfl, rfl⟩

/-- C10 (witness): concrete success and failure executions update the
counters as stated. -/
theorem claim_C10_witness :
    (execute_arbitrage oppX (some "raw") (fun _ => some [("result", some 1)]) 5 100
        ⟨0, 0, 0, 0⟩).trades_executed = 0 + 1 ∧
    (execute_arbitrage oppX none (fun _ => some [("result", some 1)]) 5 100
        ⟨0, 0, 0, 0⟩).failed_trades = 0 + 1 := by
  constructor
  · exact ((claim_C10 oppX (some "raw") (fun _ => some [("result", some 1)]) 5 100
      ⟨0, 0, 0, 0⟩).1 ⟨"raw", rfl, by decide⟩).1
  · exact ((claim_C10 oppX none (fun _ => some [("result", some 1)]) 5 100
      ⟨0, 0, 0, 0⟩).2 (Or.inl rfl)).1

end ClaimSection

end ETHBot
